import Mathlib

/-!
Verification of the zod-rs validation combinator engine: a shallow embedding
of the schema types (`zod-rs/src/schema/*.rs`) and the error/issue/result
model (`zod-rs-util/src/error/{issue,result}.rs`), with theorems settling
the frozen behavioural claims.

Modelling conventions:
* `serde_json::Value` numbers are embedded as exact rationals (`ℚ`); every
  JSON number is finite, and `f64::fract() == 0.0` corresponds to the
  rational having denominator 1.
* Rust `String` length (`str::len`, byte length) is `String.utf8ByteSize`.
* A compiled `regex::Regex` is embedded as its source text together with
  its boolean matcher.
* `HashMap` iteration order (object field tables) is represented by the
  order of the embedded association list; it is NOT determined by the
  configuration, so reorderings of the list model the reorderings the hash
  map may produce.  `serde_json::Map` (a `BTreeMap` by default) iterates
  sorted by key; its `insert` is embedded by sorted insertion.
-/

namespace ZodRs

/-- The six-shape value model (`serde_json::Value`); an `obj` carries its
entries in map iteration order (sorted by key for well-formed inputs). -/
inductive Value where
  | null
  | bool (b : Bool)
  | num (q : ℚ)
  | str (s : String)
  | arr (items : List Value)
  | obj (entries : List (String × Value))

/-- Rust `Value::is_null`. -/
def Value.is_null : Value → Bool
  | .null => true
  | _ => false

/-- Rust `Value::as_str`. -/
def Value.as_str : Value → Option String
  | .str s => some s
  | _ => none

/-- Rust `Value::as_f64` (defined on every JSON number). -/
def Value.as_f64 : Value → Option ℚ
  | .num q => some q
  | _ => none

/-- Rust `Value::as_bool`. -/
def Value.as_bool : Value → Option Bool
  | .bool b => some b
  | _ => none

/-- Rust `Value::as_array`. -/
def Value.as_array : Value → Option (List Value)
  | .arr items => some items
  | _ => none

/-- Rust `Value::as_object`. -/
def Value.as_object : Value → Option (List (String × Value))
  | .obj entries => some entries
  | _ => none

/-- Modelled from the spec: the type tags named by `InvalidType{expected,
actual}` (the current `zod-rs-util` error module is not among the source
files; only a stale historical snapshot of it is).  The variants are those
the schema sources use: `String`, `Number`, `Bool`, `Object`, `Array`,
`Null` and `ValidationType::custom(..)`. -/
inductive ValidationType where
  | string
  | number
  | bool
  | object
  | array
  | null
  | custom (name : String)

/-- Modelled from the spec: `ValidationType::from(&Value)` maps each value
shape to its type tag. -/
def ValidationType.fromValue : Value → ValidationType
  | .null => .null
  | .bool _ => .bool
  | .num _ => .number
  | .str _ => .string
  | .arr _ => .array
  | .obj _ => .object

/-- Modelled from the spec: the `origin` of a sizing error — the subject
category (Text/List/Number) a `TooBig`/`TooSmall` refers to.  The schema
sources use `ValidationOrigin::{String, Array, Number}`. -/
inductive ValidationOrigin where
  | string
  | array
  | number

/-- Modelled from the spec: the numeric constraint named by
`InvalidNumberConstraint` (`Finite | Positive | Negative | NonNegative |
NonPositive`). -/
inductive NumberConstraint where
  | finite
  | positive
  | negative
  | nonNegative
  | nonPositive

/-- Modelled from the spec: the string-format kind of an `InvalidFormat`
error (`StartsWith`/`EndsWith`/`Includes`/`Regex` plus
`StringFormat::custom("email"|"url")`). -/
inductive StringFormat where
  | startsWith
  | endsWith
  | includes
  | regex
  | custom (name : String)

mutual
/-- Modelled from the spec: the closed error taxonomy (`ValidationError`) —
`Required`; `InvalidType{expected, actual}`; `InvalidValue{value}`;
`TooBig`/`TooSmall{origin, bound, inclusive}`; `InvalidFormat{kind,
detail}`; `InvalidNumberConstraint`; `UnrecognizedKeys{keys}`;
`InvalidUnion{nested issues}`; `Custom{message}`.  Constructor argument
shapes follow the calls made by the schema sources
(`ValidationError::too_small(origin, bound, inclusive)` and so on). -/
inductive ValidationError where
  | required
  | invalidType (expected actual : ValidationType)
  | invalidValue (value : String)
  | tooSmall (origin : ValidationOrigin) (bound : String) (inclusive : Bool)
  | tooBig (origin : ValidationOrigin) (bound : String) (inclusive : Bool)
  | invalidFormat (kind : StringFormat) (detail : Option String)
  | invalidNumber (constraint : NumberConstraint)
  | unrecognizedKeys (keys : List String)
  | invalidUnion (issues : List ValidationIssue)
  | custom (message : String)

/-- One error plus the path at which it occurred
(`zod-rs-util/src/error/issue.rs`). -/
inductive ValidationIssue where
  | mk (path : List String) (error : ValidationError)
end

/-- The path component of an issue. -/
def ValidationIssue.path : ValidationIssue → List String
  | .mk p _ => p

/-- The error component of an issue. -/
def ValidationIssue.error : ValidationIssue → ValidationError
  | .mk _ e => e

/-- An ordered collection of issues; empty means success
(`zod-rs-util/src/error/result.rs`). -/
structure ValidationResult where
  issues : List ValidationIssue

/-- `ValidationResult::new`. -/
def ValidationResult.new : ValidationResult := ⟨[]⟩

/-- `ValidationResult::with_error`: one issue at the root path. -/
def ValidationResult.with_error (error : ValidationError) : ValidationResult :=
  ⟨[.mk [] error]⟩

/-- `ValidationResult::with_issue`. -/
def ValidationResult.with_issue (issue : ValidationIssue) : ValidationResult :=
  ⟨[issue]⟩

/-- `ValidationResult::add_error` (functional rendering of the `&mut self`
push). -/
def ValidationResult.add_error (r : ValidationResult) (error : ValidationError) :
    ValidationResult :=
  ⟨r.issues ++ [.mk [] error]⟩

/-- `ValidationResult::add_issue`. -/
def ValidationResult.add_issue (r : ValidationResult) (issue : ValidationIssue) :
    ValidationResult :=
  ⟨r.issues ++ [issue]⟩

/-- `ValidationResult::add_error_at_path`. -/
def ValidationResult.add_error_at_path (r : ValidationResult) (path : List String)
    (error : ValidationError) : ValidationResult :=
  ⟨r.issues ++ [.mk path error]⟩

/-- `ValidationResult::merge`: concatenate the other result's issues. -/
def ValidationResult.merge (r other : ValidationResult) : ValidationResult :=
  ⟨r.issues ++ other.issues⟩

/-- `ValidationResult::is_empty`. -/
def ValidationResult.is_empty (r : ValidationResult) : Bool :=
  r.issues.isEmpty

/-- `ValidationResult::len`. -/
def ValidationResult.len (r : ValidationResult) : Nat :=
  r.issues.length

/-- `ValidationResult::prefix_path`: prepend one segment onto every
contained issue's path. -/
def ValidationResult.prefix_path (r : ValidationResult) (pre : String) :
    ValidationResult :=
  ⟨r.issues.map (fun issue => .mk (pre :: issue.path) issue.error)⟩

/-- `ValidationResult::into_result` (`error/result.rs`, the version the
crate exports): `Ok(())` when there are no issues, `Err(self)` otherwise. -/
def ValidationResult.into_result (r : ValidationResult) : Except ValidationResult Unit :=
  if r.is_empty then .ok () else .error r

/-- `ValidationResult::into_err`: `Some(self)` when there are issues. -/
def ValidationResult.into_err (r : ValidationResult) : Option ValidationResult :=
  if r.is_empty then none else some r

/-- Lexicographic order on char lists; used to embed the byte-lexicographic
`Ord` on Rust `String` (UTF-8 byte order agrees with codepoint order). -/
def charListLt : List Char → List Char → Bool
  | [], _ :: _ => true
  | [], [] => false
  | _ :: _, [] => false
  | a :: as, b :: bs => a < b || (a == b && charListLt as bs)

/-- Rust `String` ordering (`BTreeMap` key order). -/
def strLt (a b : String) : Bool := charListLt a.toList b.toList

/-- Rust `str::starts_with` (a char-wise prefix is a byte-wise prefix in
UTF-8 and conversely). -/
def strStartsWith (s pre : String) : Bool := pre.toList.isPrefixOf s.toList

/-- Rust `str::ends_with`. -/
def strEndsWith (s suf : String) : Bool := suf.toList.isSuffixOf s.toList

/-- Rust `str::contains` on a literal substring (a valid UTF-8 byte
substring always falls on char boundaries). -/
def strContains (s sub : String) : Bool :=
  s.toList.tails.any (fun t => sub.toList.isPrefixOf t)

/-- A character matched by the regex class `[^\s@]`. -/
def emailChar (c : Char) : Bool := !c.isWhitespace && c != '@'

/-- `is_valid_email` (`string.rs`): matches the anchored regex
`[^\s@]+@[^\s@]+\.[^\s@]+` — exactly one `@`, a non-empty whitespace-free
part before it, and a non-empty whitespace-free part after it containing a
dot that is neither its first nor its last character. -/
def is_valid_email (email : String) : Bool :=
  match email.toList.splitOn '@' with
  | [before, domain] =>
    !before.isEmpty && before.all emailChar &&
    !domain.isEmpty && domain.all emailChar &&
    (domain.drop 1).dropLast.contains '.'
  | _ => false

/-- `is_valid_url` (`string.rs`): a scheme-prefix check only. -/
def is_valid_url (url : String) : Bool :=
  strStartsWith url "http://" || strStartsWith url "https://"

/-- A compiled `regex::Regex`: its source text (used in error details via
`Regex::to_string`) together with its boolean matcher. -/
structure RegexPat where
  source : String
  isMatch : String → Bool

/-- The configuration record of `StringSchema` (`string.rs`). -/
structure StringConfig where
  min_length : Option Nat
  max_length : Option Nat
  starts_with : Option String
  ends_with : Option String
  includes : Option String
  pattern : Option RegexPat
  email : Bool
  url : Bool

/-- The `string()` constructor: all constraints off. -/
def string : StringConfig :=
  ⟨none, none, none, none, none, none, false, false⟩

/-- `StringSchema::min`. -/
def StringConfig.min (c : StringConfig) (m : Nat) : StringConfig :=
  { c with min_length := some m }

/-- `StringSchema::max`. -/
def StringConfig.max (c : StringConfig) (m : Nat) : StringConfig :=
  { c with max_length := some m }

/-- `StringSchema::length`: sets both bounds. -/
def StringConfig.length (c : StringConfig) (len : Nat) : StringConfig :=
  (c.min len).max len

/-- `StringSchema::starts_with`. -/
def StringConfig.startsWithC (c : StringConfig) (val : String) : StringConfig :=
  { c with starts_with := some val }

/-- `StringSchema::ends_with`. -/
def StringConfig.endsWithC (c : StringConfig) (val : String) : StringConfig :=
  { c with ends_with := some val }

/-- `StringSchema::includes`. -/
def StringConfig.includesC (c : StringConfig) (val : String) : StringConfig :=
  { c with includes := some val }

/-- `StringSchema::regex`/`try_regex`, given an already compiled pattern
(pattern compilation is a build-time concern, not validation). -/
def StringConfig.regexC (c : StringConfig) (p : RegexPat) : StringConfig :=
  { c with pattern := some p }

/-- `StringSchema::email`. -/
def StringConfig.emailC (c : StringConfig) : StringConfig :=
  { c with email := true }

/-- `StringSchema::url`. -/
def StringConfig.urlC (c : StringConfig) : StringConfig :=
  { c with url := true }

/-- The configuration record of `NumberSchema` (`number.rs`). -/
structure NumberConfig where
  min : Option ℚ
  max : Option ℚ
  integer : Bool
  positive : Bool
  negative : Bool
  nonnegative : Bool
  nonpositive : Bool
  finite : Bool

/-- The `number()` constructor: all constraints off. -/
def number : NumberConfig :=
  ⟨none, none, false, false, false, false, false, false⟩

/-- `NumberSchema::min`. -/
def NumberConfig.minC (c : NumberConfig) (m : ℚ) : NumberConfig :=
  { c with min := some m }

/-- `NumberSchema::max`. -/
def NumberConfig.maxC (c : NumberConfig) (m : ℚ) : NumberConfig :=
  { c with max := some m }

/-- `NumberSchema::int`. -/
def NumberConfig.int (c : NumberConfig) : NumberConfig :=
  { c with integer := true }

/-- `NumberSchema::positive`. -/
def NumberConfig.positiveC (c : NumberConfig) : NumberConfig :=
  { c with positive := true }

/-- `NumberSchema::negative`. -/
def NumberConfig.negativeC (c : NumberConfig) : NumberConfig :=
  { c with negative := true }

/-- `NumberSchema::nonnegative`. -/
def NumberConfig.nonnegativeC (c : NumberConfig) : NumberConfig :=
  { c with nonnegative := true }

/-- `NumberSchema::nonpositive`. -/
def NumberConfig.nonpositiveC (c : NumberConfig) : NumberConfig :=
  { c with nonpositive := true }

/-- `NumberSchema::finite`. -/
def NumberConfig.finiteC (c : NumberConfig) : NumberConfig :=
  { c with finite := true }

/-- Rust `f64::fract() == 0.0`: the number is integer-valued.  In the exact
rational embedding this is `den = 1`. -/
def fractIsZero (q : ℚ) : Bool := q.den == 1

/-- Rust `f64::is_finite()`: every JSON number (and hence every embedded
rational) is finite, so this is constantly true in the model. -/
def ratIsFinite (_q : ℚ) : Bool := true

/-- Rust `f64::to_string` for the bound values that reach error messages.
Integer-valued doubles print without a decimal part, matching
`(5.0).to_string() == "5"`; non-integral bounds are rendered as exact
fractions (no claim exercises that display). -/
def fmtF64 (q : ℚ) : String :=
  if q.den = 1 then toString q.num else toString q.num ++ "/" ++ toString q.den

/-- `f64::EPSILON` as an exact rational (2 to the power -52), used by the
numeric literal schema's tolerance comparison. -/
def f64Epsilon : ℚ := mkRat 1 4503599627370496

mutual
/-- The schema combinator tree: one constructor per schema type of
`zod-rs/src/schema` (the trait-object polymorphism is embedded as a closed
variant type; each composite carries its child schemas). -/
inductive Schema where
  | stringS (cfg : StringConfig)
  | numberS (cfg : NumberConfig)
  | booleanS
  | nullS
  | literalStrS (expected : String)
  | literalNumS (expected : ℚ)
  | arrayS (min_length max_length : Option Nat) (elem : Schema)
  | optionalS (inner : Schema)
  | unionS (variants : SchemaList)
  | tupleS (elements : SchemaList)
  | objectS (fields : FieldList) (strict : Bool)

/-- The variant list of a union / element list of a tuple (`Vec<Arc<dyn
Schema>>`), in configuration order. -/
inductive SchemaList where
  | nil
  | cons (s : Schema) (rest : SchemaList)

/-- The field table of an object schema (`HashMap<String, Arc<dyn
ObjectFieldValidator>>`), listed in the hash map's iteration order; each
entry is the field name, whether the field validator is the optional one,
and the field's schema. -/
inductive FieldList where
  | nil
  | cons (name : String) (isOptionalField : Bool) (s : Schema) (rest : FieldList)
end

/-- Builds a `SchemaList` from a Lean list (in order). -/
def toSchemaList : List Schema → SchemaList
  | [] => .nil
  | s :: rest => .cons s (toSchemaList rest)

/-- The Lean list of a `SchemaList`. -/
def SchemaList.toList : SchemaList → List Schema
  | .nil => []
  | .cons s rest => s :: rest.toList

/-- `Vec::len` on a schema list. -/
def SchemaList.length : SchemaList → Nat
  | .nil => 0
  | .cons _ rest => rest.length + 1

/-- Builds a `FieldList` from a Lean list (in order). -/
def toFieldList : List (String × Bool × Schema) → FieldList
  | [] => .nil
  | (name, isOpt, s) :: rest => .cons name isOpt s (toFieldList rest)

/-- The Lean list of a `FieldList`. -/
def FieldList.toList : FieldList → List (String × Bool × Schema)
  | .nil => []
  | .cons name isOpt s rest => (name, isOpt, s) :: rest.toList

/-- `HashMap::contains_key` on the field table. -/
def FieldList.contains_key : FieldList → String → Bool
  | .nil, _ => false
  | .cons name _ _ rest, k => name == k || rest.contains_key k

mutual
/-- A validated output, distinguishing the Rust output types: `String`,
`f64`, `bool`, `()` (null schema), `serde_json::Value` (object/tuple),
`Vec<T>` (array) and `Option<T>` (optional wrapper). -/
inductive VOut where
  | vStr (s : String)
  | vNum (q : ℚ)
  | vBool (b : Bool)
  | vUnit
  | vValue (v : Value)
  | vVec (items : VOutList)
  | vNone
  | vSome (x : VOut)

/-- A `Vec` of validated outputs (an array schema's result). -/
inductive VOutList where
  | nil
  | cons (x : VOut) (rest : VOutList)
end

mutual
/-- `serde_json::to_value` on a validated output (total on every type a
schema can produce: `None` and `()` serialize to null, a `Vec` to an
array, primitives to themselves). -/
def serializeOut : VOut → Value
  | .vStr s => .str s
  | .vNum q => .num q
  | .vBool b => .bool b
  | .vUnit => .null
  | .vValue v => v
  | .vVec items => .arr (serializeOutList items)
  | .vNone => .null
  | .vSome x => serializeOut x

/-- Element-wise serialization of a `Vec` output. -/
def serializeOutList : VOutList → List Value
  | .nil => []
  | .cons x rest => serializeOut x :: serializeOutList rest
end

/-- The Lean list of a `VOutList`. -/
def VOutList.toList : VOutList → List VOut
  | .nil => []
  | .cons x rest => x :: rest.toList

/-- Builds a `VOutList` from a Lean list (in order). -/
def toVOutList : List VOut → VOutList
  | [] => .nil
  | x :: rest => .cons x (toVOutList rest)

/-- `BTreeMap::get` on an object value's entries. -/
def mapGet (entries : List (String × Value)) (k : String) : Option Value :=
  (entries.find? (fun kv => kv.1 == k)).map (fun kv => kv.2)

/-- `BTreeMap::insert` (`serde_json::Map::insert` with the default
`BTreeMap` backend): sorted insertion, replacing an equal key. -/
def mapInsert : List (String × Value) → String → Value → List (String × Value)
  | [], k, v => [(k, v)]
  | (k', v') :: rest, k, v =>
    if strLt k k' then (k, v) :: (k', v') :: rest
    else if k == k' then (k, v) :: rest
    else (k', v') :: mapInsert rest k v

/-- `StringSchema::validate`, last early-return block (`string.rs`): the
url-shape check. -/
def stringCheckUrl (cfg : StringConfig) (string_val : String) :
    Except ValidationResult String :=
  if cfg.url && !is_valid_url string_val then
    .error (ValidationResult.with_error (.invalidFormat (.custom "url") none))
  else .ok string_val

/-- `StringSchema::validate`: the email-shape check, then the url check. -/
def stringCheckEmail (cfg : StringConfig) (string_val : String) :
    Except ValidationResult String :=
  if cfg.email && !is_valid_email string_val then
    .error (ValidationResult.with_error (.invalidFormat (.custom "email") none))
  else stringCheckUrl cfg string_val

/-- `StringSchema::validate`: the regex check, then the later checks. -/
def stringCheckRegex (cfg : StringConfig) (string_val : String) :
    Except ValidationResult String :=
  match cfg.pattern with
  | some pat =>
    if !pat.isMatch string_val then
      .error (ValidationResult.with_error (.invalidFormat .regex (some pat.source)))
    else stringCheckEmail cfg string_val
  | none => stringCheckEmail cfg string_val

/-- `StringSchema::validate`: the includes check, then the later checks. -/
def stringCheckIncludes (cfg : StringConfig) (string_val : String) :
    Except ValidationResult String :=
  match cfg.includes with
  | some inc =>
    if !strContains string_val inc then
      .error (ValidationResult.with_error (.invalidFormat .includes (some inc)))
    else stringCheckRegex cfg string_val
  | none => stringCheckRegex cfg string_val

/-- `StringSchema::validate`: the ends-with check, then the later checks. -/
def stringCheckEndsWith (cfg : StringConfig) (string_val : String) :
    Except ValidationResult String :=
  match cfg.ends_with with
  | some ew =>
    if !strEndsWith string_val ew then
      .error (ValidationResult.with_error (.invalidFormat .endsWith (some ew)))
    else stringCheckIncludes cfg string_val
  | none => stringCheckIncludes cfg string_val

/-- `StringSchema::validate`: the starts-with check, then the later
checks. -/
def stringCheckStartsWith (cfg : StringConfig) (string_val : String) :
    Except ValidationResult String :=
  match cfg.starts_with with
  | some sw =>
    if !strStartsWith string_val sw then
      .error (ValidationResult.with_error (.invalidFormat .startsWith (some sw)))
    else stringCheckEndsWith cfg string_val
  | none => stringCheckEndsWith cfg string_val

/-- `StringSchema::validate`: the max-length check (byte length), then the
later checks. -/
def stringCheckMax (cfg : StringConfig) (string_val : String) :
    Except ValidationResult String :=
  match cfg.max_length with
  | some mx =>
    if string_val.utf8ByteSize > mx then
      .error (ValidationResult.with_error (.tooBig .string (toString mx) true))
    else stringCheckStartsWith cfg string_val
  | none => stringCheckStartsWith cfg string_val

/-- `StringSchema::validate`: the min-length check (byte length), then the
later checks. -/
def stringCheckMin (cfg : StringConfig) (string_val : String) :
    Except ValidationResult String :=
  match cfg.min_length with
  | some mn =>
    if string_val.utf8ByteSize < mn then
      .error (ValidationResult.with_error (.tooSmall .string (toString mn) true))
    else stringCheckMax cfg string_val
  | none => stringCheckMax cfg string_val

/-- `StringSchema::validate` (`string.rs`): type first, then min length,
max length (byte lengths), starts-with, ends-with, includes, regex, email,
url — each check returns a single root-path issue immediately (the staged
helper defs above mirror the source's sequence of early-return blocks). -/
def validateString (cfg : StringConfig) (value : Value) : Except ValidationResult String :=
  match value.as_str with
  | some string_val => stringCheckMin cfg string_val
  | none => .error (ValidationResult.with_error
      (.invalidType .string (.fromValue value)))

/-- `NumberSchema::validate`, last early-return block (`number.rs`): the
nonpositive check. -/
def numCheckNonpositive (cfg : NumberConfig) (num : ℚ) : Except ValidationResult ℚ :=
  if cfg.nonpositive ∧ num > 0 then
    .error (ValidationResult.with_error (.invalidNumber .nonPositive))
  else .ok num

/-- `NumberSchema::validate`: the nonnegative check, then the later
checks. -/
def numCheckNonnegative (cfg : NumberConfig) (num : ℚ) : Except ValidationResult ℚ :=
  if cfg.nonnegative ∧ num < 0 then
    .error (ValidationResult.with_error (.invalidNumber .nonNegative))
  else numCheckNonpositive cfg num

/-- `NumberSchema::validate`: the negative check, then the later checks. -/
def numCheckNegative (cfg : NumberConfig) (num : ℚ) : Except ValidationResult ℚ :=
  if cfg.negative ∧ num ≥ 0 then
    .error (ValidationResult.with_error (.invalidNumber .negative))
  else numCheckNonnegative cfg num

/-- `NumberSchema::validate`: the positive check, then the later checks. -/
def numCheckPositive (cfg : NumberConfig) (num : ℚ) : Except ValidationResult ℚ :=
  if cfg.positive ∧ num ≤ 0 then
    .error (ValidationResult.with_error (.invalidNumber .positive))
  else numCheckNegative cfg num

/-- `NumberSchema::validate`: the inclusive max check, then the later
checks. -/
def numCheckMax (cfg : NumberConfig) (num : ℚ) : Except ValidationResult ℚ :=
  match cfg.max with
  | some mx =>
    if num > mx then
      .error (ValidationResult.with_error (.tooBig .number (fmtF64 mx) true))
    else numCheckPositive cfg num
  | none => numCheckPositive cfg num

/-- `NumberSchema::validate`: the inclusive min check, then the later
checks. -/
def numCheckMin (cfg : NumberConfig) (num : ℚ) : Except ValidationResult ℚ :=
  match cfg.min with
  | some mn =>
    if num < mn then
      .error (ValidationResult.with_error (.tooSmall .number (fmtF64 mn) true))
    else numCheckMax cfg num
  | none => numCheckMax cfg num

/-- `NumberSchema::validate`: the finite check, then the later checks. -/
def numCheckFinite (cfg : NumberConfig) (num : ℚ) : Except ValidationResult ℚ :=
  if cfg.finite && !ratIsFinite num then
    .error (ValidationResult.with_error (.invalidNumber .finite))
  else numCheckMin cfg num

/-- `NumberSchema::validate`: the integer check, then the later checks. -/
def numCheckInt (cfg : NumberConfig) (num : ℚ) : Except ValidationResult ℚ :=
  if cfg.integer && !fractIsZero num then
    .error (ValidationResult.with_error
      (.invalidType (.custom "integer") (.custom "float")))
  else numCheckFinite cfg num

/-- `NumberSchema::validate` (`number.rs`): type, integer, finite, min,
max (inclusive comparisons), positive, negative, nonnegative, nonpositive
— each check returns a single root-path issue immediately (the staged
helper defs above mirror the source's sequence of early-return blocks). -/
def validateNumber (cfg : NumberConfig) (value : Value) : Except ValidationResult ℚ :=
  match value.as_f64 with
  | some num => numCheckInt cfg num
  | none => .error (ValidationResult.with_error
      (.invalidType .number (.fromValue value)))

/-- `BooleanSchema::validate` (`boolean.rs`): `Value::Bool` only, no
coercion. -/
def validateBoolean (value : Value) : Except ValidationResult Bool :=
  match value.as_bool with
  | some b => .ok b
  | none => .error (ValidationResult.with_error
      (.invalidType .bool (.fromValue value)))

/-- `NullSchema::validate` (`null.rs`): `Value::Null` only. -/
def validateNull (value : Value) : Except ValidationResult Unit :=
  if value.is_null then .ok ()
  else .error (ValidationResult.with_error
    (.invalidType .null (.fromValue value)))

/-- `LiteralSchema<String>::validate` (`literal.rs`): exact string
equality. -/
def validateLiteralStr (expected : String) (value : Value) :
    Except ValidationResult String :=
  match value.as_str with
  | some s =>
    if s == expected then .ok s
    else .error (ValidationResult.with_error (.invalidValue expected))
  | none => .error (ValidationResult.with_error
      (.invalidType .string (.fromValue value)))

/-- `LiteralSchema<f64>::validate` (`literal.rs`): numeric equality up to
`f64::EPSILON`. -/
def validateLiteralNum (expected : ℚ) (value : Value) :
    Except ValidationResult ℚ :=
  match value.as_f64 with
  | some n =>
    if |n - expected| < f64Epsilon then .ok n
    else .error (ValidationResult.with_error (.invalidValue (fmtF64 expected)))
  | none => .error (ValidationResult.with_error
      (.invalidType .number (.fromValue value)))

/-- The element loop of `ArraySchema::validate` (`array.rs`): validate
every element with the element schema's validator `velem`, pushing
successful outputs in order and merging each failure's issues after
prefixing the stringified index. -/
def elemsGo (velem : Value → Except ValidationResult VOut) :
    List Value → Nat → VOutList × ValidationResult
  | [], _ => (.nil, ValidationResult.new)
  | item :: rest, index =>
    let tail := elemsGo velem rest (index + 1)
    match velem item with
    | .ok validated_item => (.cons validated_item tail.1, tail.2)
    | .error errors => (tail.1, (errors.prefix_path (toString index)).merge tail.2)

/-- `ArraySchema::validate` after the bound checks (`array.rs`): run the
element loop and return the collected outputs exactly when no issue was
collected. -/
def arrayElemsRun (velem : Value → Except ValidationResult VOut)
    (array : List Value) : Except ValidationResult VOut :=
  let r := elemsGo velem array 0
  if r.2.is_empty then .ok (.vVec r.1) else .error r.2

/-- `ArraySchema::validate`: the max-length bound, then the element loop. -/
def arrayCheckMax (max_length : Option Nat)
    (velem : Value → Except ValidationResult VOut) (array : List Value) :
    Except ValidationResult VOut :=
  match max_length with
  | some mx =>
    if array.length > mx then
      .error (ValidationResult.with_error (.tooBig .array (toString mx) true))
    else arrayElemsRun velem array
  | none => arrayElemsRun velem array

/-- `ArraySchema::validate`: the min-length bound, then the later steps. -/
def arrayCheckMin (min_length max_length : Option Nat)
    (velem : Value → Except ValidationResult VOut) (array : List Value) :
    Except ValidationResult VOut :=
  match min_length with
  | some mn =>
    if array.length < mn then
      .error (ValidationResult.with_error (.tooSmall .array (toString mn) true))
    else arrayCheckMax max_length velem array
  | none => arrayCheckMax max_length velem array

/-- `ObjectFieldValidator::validate_field` (`object.rs`): the required
validator demands a present value and validates it; the optional validator
accepts a missing or null value as `Value::Null` without invoking the
inner schema.  A validated output is serialized back to a `Value`
(`serde_json::to_value`, total on schema outputs). -/
def fieldGo (isOpt : Bool) (vf : Value → Except ValidationResult VOut)
    (value : Option Value) : Except ValidationResult Value :=
  if isOpt then
    match value with
    | some v => if !v.is_null then (vf v).map serializeOut else .ok .null
    | none => .ok .null
  else
    match value with
    | some v => (vf v).map serializeOut
    | none => .error (ValidationResult.with_error .required)

mutual
/-- `Schema::validate`: the recursive validation algorithm, one case per
schema type (`string.rs`, `number.rs`, `boolean.rs`, `null.rs`,
`literal.rs`, `array.rs`, `optional.rs`, `union.rs`, `tuple.rs`,
`object.rs`). -/
def validate : Schema → Value → Except ValidationResult VOut
  | .stringS cfg, value => (validateString cfg value).map .vStr
  | .numberS cfg, value => (validateNumber cfg value).map .vNum
  | .booleanS, value => (validateBoolean value).map .vBool
  | .nullS, value => (validateNull value).map (fun _ => .vUnit)
  | .literalStrS expected, value => (validateLiteralStr expected value).map .vStr
  | .literalNumS expected, value => (validateLiteralNum expected value).map .vNum
  | .optionalS inner, value =>
    if value.is_null then .ok .vNone
    else (validate inner value).map .vSome
  | .arrayS min_length max_length elem, value =>
    match value.as_array with
    | some array => arrayCheckMin min_length max_length (validate elem) array
    | none => .error (ValidationResult.with_error
        (.invalidType .array (.fromValue value)))
  | .unionS variants, value => validateUnion variants value []
  | .tupleS elements, value =>
    match value.as_array with
    | none => .error (ValidationResult.with_error
        (.invalidType .array (.fromValue value)))
    | some arr =>
      if arr.length ≠ elements.length then
        .error (ValidationResult.with_error (.custom
          ("Expected tuple of " ++ toString elements.length ++
            " elements, got " ++ toString arr.length)))
      else
        let r := validateTuple elements arr 0
        if r.2.is_empty then .ok (.vValue (.arr r.1)) else .error r.2
  | .objectS fields strict, value =>
    match value.as_object with
    | none => .error (ValidationResult.with_error
        (.invalidType .object (.fromValue value)))
    | some obj =>
      let fr := validateFields fields obj
      let field_result := fr.1.foldl (fun m kv => mapInsert m kv.1 kv.2) []
      let validation_result :=
        if strict then
          let unrecognized_keys :=
            (obj.filter (fun kv => !fields.contains_key kv.1)).map (fun kv => kv.1)
          if !unrecognized_keys.isEmpty then
            fr.2.add_error_at_path [] (.unrecognizedKeys unrecognized_keys)
          else fr.2
        else fr.2
      let result :=
        if strict then field_result
        else (obj.filter (fun kv => !fields.contains_key kv.1)).foldl
          (fun m kv => mapInsert m kv.1 kv.2) field_result
      if validation_result.is_empty then .ok (.vValue (.obj result))
      else .error validation_result

/-- `UnionSchema::validate` (`union.rs`): try each variant in order on the
same value; the first success returns immediately; a failure's issues are
appended to the accumulator; when no variant is left, fail with a single
`InvalidUnion` issue carrying all accumulated issues. -/
def validateUnion : SchemaList → Value → List ValidationIssue →
    Except ValidationResult VOut
  | .nil, _, issues => .error (ValidationResult.with_error (.invalidUnion issues))
  | .cons s rest, value, issues =>
    match validate s value with
    | .ok result => .ok result
    | .error e => validateUnion rest value (issues ++ e.issues)

/-- The position loop of `TupleSchema::validate` (`tuple.rs`): zip the
input items with the element schemas, validate-and-serialize each position
(`TupleElementValidatorImpl::validate_element`), pushing successes in
order and merging failures' issues after prefixing the index. -/
def validateTuple : SchemaList → List Value → Nat → List Value × ValidationResult
  | .nil, _, _ => ([], ValidationResult.new)
  | .cons _ _, [], _ => ([], ValidationResult.new)
  | .cons s rest, item :: items, i =>
    let tail := validateTuple rest items (i + 1)
    match (validate s item).map serializeOut with
    | .ok validated => (validated :: tail.1, tail.2)
    | .error errors => (tail.1, (errors.prefix_path (toString i)).merge tail.2)

/-- The field loop of `ObjectSchema::validate` (`object.rs`): iterate the
field table in its (hash map) order, look each field up in the input
object, run its field validator, keep the pairs to insert into the output
(required fields always, optional fields only when non-null) and merge
failures' issues after prefixing the field name. -/
def validateFields : FieldList → List (String × Value) →
    List (String × Value) × ValidationResult
  | .nil, _ => ([], ValidationResult.new)
  | .cons field_name isOpt s rest, obj =>
    let tail := validateFields rest obj
    match fieldGo isOpt (validate s) (mapGet obj field_name) with
    | .ok validated_value =>
      (if !validated_value.is_null || !isOpt then
        (field_name, validated_value) :: tail.1
      else tail.1, tail.2)
    | .error errors => (tail.1, (errors.prefix_path field_name).merge tail.2)
end

/-! Spec-side definitions: declarative renderings of claimed behaviour,
compared against `validate` by the theorems below. -/

/-- The issues carried by a validate outcome: none on success, the
result's issues on failure. -/
def errIssues : Except ValidationResult VOut → List ValidationIssue
  | .ok _ => []
  | .error r => r.issues

/-- The first `some` in an ordered list of potential violations (the
claimed "stops at the first violated check" reading). -/
def firstSome : List (Option ValidationError) → Option ValidationError
  | [] => none
  | some e :: _ => some e
  | none :: rest => firstSome rest

/-- The min-length violation of a string, if any. -/
def checkMin (cfg : StringConfig) (s : String) : Option ValidationError :=
  match cfg.min_length with
  | some mn =>
    if s.utf8ByteSize < mn then some (.tooSmall .string (toString mn) true) else none
  | none => none

/-- The max-length violation of a string, if any. -/
def checkMax (cfg : StringConfig) (s : String) : Option ValidationError :=
  match cfg.max_length with
  | some mx =>
    if s.utf8ByteSize > mx then some (.tooBig .string (toString mx) true) else none
  | none => none

/-- The starts-with violation of a string, if any. -/
def checkStartsWith (cfg : StringConfig) (s : String) : Option ValidationError :=
  match cfg.starts_with with
  | some sw =>
    if !strStartsWith s sw then some (.invalidFormat .startsWith (some sw)) else none
  | none => none

/-- The ends-with violation of a string, if any. -/
def checkEndsWith (cfg : StringConfig) (s : String) : Option ValidationError :=
  match cfg.ends_with with
  | some ew =>
    if !strEndsWith s ew then some (.invalidFormat .endsWith (some ew)) else none
  | none => none

/-- The includes violation of a string, if any. -/
def checkIncludes (cfg : StringConfig) (s : String) : Option ValidationError :=
  match cfg.includes with
  | some inc =>
    if !strContains s inc then some (.invalidFormat .includes (some inc)) else none
  | none => none

/-- The regex violation of a string, if any. -/
def checkRegex (cfg : StringConfig) (s : String) : Option ValidationError :=
  match cfg.pattern with
  | some pat =>
    if !pat.isMatch s then some (.invalidFormat .regex (some pat.source)) else none
  | none => none

/-- The email-shape violation of a string, if any. -/
def checkEmail (cfg : StringConfig) (s : String) : Option ValidationError :=
  if cfg.email && !is_valid_email s then
    some (.invalidFormat (.custom "email") none)
  else none

/-- The url-shape violation of a string, if any. -/
def checkUrl (cfg : StringConfig) (s : String) : Option ValidationError :=
  if cfg.url && !is_valid_url s then some (.invalidFormat (.custom "url") none) else none

/-- Either a single-issue failure on the violation, or the string itself. -/
def toExceptStr (o : Option ValidationError) (s : String) : Except ValidationResult String :=
  match o with
  | some e => .error (.with_error e)
  | none => .ok s

/-- The first violated string check, in the claimed fixed order: min, max,
starts-with, ends-with, includes, regex, email, url. -/
def stringViolation (cfg : StringConfig) (s : String) : Option ValidationError :=
  firstSome [checkMin cfg s, checkMax cfg s, checkStartsWith cfg s, checkEndsWith cfg s,
    checkIncludes cfg s, checkRegex cfg s, checkEmail cfg s, checkUrl cfg s]

/-- The first violated check of a string schema on a value: the type check
first, then the ordered constraint checks. -/
def stringFirstViolation (cfg : StringConfig) (v : Value) : Option ValidationError :=
  match v.as_str with
  | some s => stringViolation cfg s
  | none => some (.invalidType .string (.fromValue v))

/-- The issues one list element contributes: none on success, its issue
set prefixed with the stringified index on failure. -/
def elemIssuesAt (elem : Schema) (idx : Nat) (item : Value) : List ValidationIssue :=
  match validate elem item with
  | .ok _ => []
  | .error r => (r.prefix_path (toString idx)).issues

/-- All issues of a list validation, in index order. -/
def specListIssues (elem : Schema) (items : List Value) : List ValidationIssue :=
  ((items.enum).map (fun p => elemIssuesAt elem p.1 p.2)).flatten

/-- The issues one tuple position contributes: none on success, its issue
set prefixed with the stringified index on failure. -/
def tupleIssuesAt (s : Schema) (idx : Nat) (item : Value) : List ValidationIssue :=
  match (validate s item).map serializeOut with
  | .ok _ => []
  | .error r => (r.prefix_path (toString idx)).issues

/-- All issues of a tuple validation, in position order. -/
def specTupleIssues (elements : List Schema) (items : List Value) : List ValidationIssue :=
  (((elements.zip items).enum).map (fun p => tupleIssuesAt p.2.1 p.1 p.2.2)).flatten

/-- The serialized outputs of the positions of a tuple that validate. -/
def specTupleOuts (elements : List Schema) (items : List Value) : List Value :=
  (elements.zip items).filterMap (fun q => ((validate q.1 q.2).map serializeOut).toOption)

/-- The input keys an object's field table does not configure, in input
order. -/
def unrecKeys (fl : FieldList) (entries : List (String × Value)) : List String :=
  (entries.filter (fun kv => !fl.contains_key kv.1)).map (fun kv => kv.1)

/-- The issues one configured object field contributes: none on success,
its issue set prefixed with the field name on failure. -/
def fieldIssuesAt (entries : List (String × Value)) (f : String × Bool × Schema) :
    List ValidationIssue :=
  match fieldGo f.2.1 (validate f.2.2) (mapGet entries f.1) with
  | .ok _ => []
  | .error e => (e.prefix_path f.1).issues



/-! Helper lemmas shared by the claim theorems. -/

theorem stringCheckUrl_eq (cfg : StringConfig) (s : String) :
    stringCheckUrl cfg s = toExceptStr (firstSome [checkUrl cfg s]) s := by
  unfold stringCheckUrl checkUrl
  split <;> simp [firstSome, toExceptStr]

theorem stringCheckEmail_eq (cfg : StringConfig) (s : String) :
    stringCheckEmail cfg s = toExceptStr (firstSome [checkEmail cfg s, checkUrl cfg s]) s := by
  unfold stringCheckEmail checkEmail
  split
  · simp [firstSome, toExceptStr]
  · simp only [firstSome]
    exact stringCheckUrl_eq cfg s

theorem stringCheckRegex_eq (cfg : StringConfig) (s : String) :
    stringCheckRegex cfg s =
      toExceptStr (firstSome [checkRegex cfg s, checkEmail cfg s, checkUrl cfg s]) s := by
  unfold stringCheckRegex checkRegex
  split
  · split
    · simp [firstSome, toExceptStr]
    · simp only [firstSome]
      exact stringCheckEmail_eq cfg s
  · simp only [firstSome]
    exact stringCheckEmail_eq cfg s

theorem stringCheckIncludes_eq (cfg : StringConfig) (s : String) :
    stringCheckIncludes cfg s =
      toExceptStr (firstSome [checkIncludes cfg s, checkRegex cfg s, checkEmail cfg s,
        checkUrl cfg s]) s := by
  unfold stringCheckIncludes checkIncludes
  split
  · split
    · simp [firstSome, toExceptStr]
    · simp only [firstSome]
      exact stringCheckRegex_eq cfg s
  · simp only [firstSome]
    exact stringCheckRegex_eq cfg s

theorem stringCheckEndsWith_eq (cfg : StringConfig) (s : String) :
    stringCheckEndsWith cfg s =
      toExceptStr (firstSome [checkEndsWith cfg s, checkIncludes cfg s, checkRegex cfg s,
        checkEmail cfg s, checkUrl cfg s]) s := by
  unfold stringCheckEndsWith checkEndsWith
  split
  · split
    · simp [firstSome, toExceptStr]
    · simp only [firstSome]
      exact stringCheckIncludes_eq cfg s
  · simp only [firstSome]
    exact stringCheckIncludes_eq cfg s

theorem stringCheckStartsWith_eq (cfg : StringConfig) (s : String) :
    stringCheckStartsWith cfg s =
      toExceptStr (firstSome [checkStartsWith cfg s, checkEndsWith cfg s, checkIncludes cfg s,
        checkRegex cfg s, checkEmail cfg s, checkUrl cfg s]) s := by
  unfold stringCheckStartsWith checkStartsWith
  split
  · split
    · simp [firstSome, toExceptStr]
    · simp only [firstSome]
      exact stringCheckEndsWith_eq cfg s
  · simp only [firstSome]
    exact stringCheckEndsWith_eq cfg s

theorem stringCheckMax_eq (cfg : StringConfig) (s : String) :
    stringCheckMax cfg s =
      toExceptStr (firstSome [checkMax cfg s, checkStartsWith cfg s, checkEndsWith cfg s,
        checkIncludes cfg s, checkRegex cfg s, checkEmail cfg s, checkUrl cfg s]) s := by
  unfold stringCheckMax checkMax
  split
  · split
    · simp [firstSome, toExceptStr]
    · simp only [firstSome]
      exact stringCheckStartsWith_eq cfg s
  · simp only [firstSome]
    exact stringCheckStartsWith_eq cfg s

theorem stringCheckMin_eq (cfg : StringConfig) (s : String) :
    stringCheckMin cfg s = toExceptStr (stringViolation cfg s) s := by
  unfold stringViolation stringCheckMin checkMin
  split
  · split
    · simp [firstSome, toExceptStr]
    · simp only [firstSome]
      exact stringCheckMax_eq cfg s
  · simp only [firstSome]
    exact stringCheckMax_eq cfg s

theorem with_error_issues_ne (e : ValidationError) :
    (ValidationResult.with_error e).issues ≠ [] := by
  simp [ValidationResult.with_error]

theorem issues_ne_of_not_empty {r : ValidationResult} (h : r.is_empty = false) :
    r.issues ≠ [] := by
  simpa [ValidationResult.is_empty, List.isEmpty_iff] using h

theorem ifGuard_error_ne {X : ValidationResult} {out : VOut} {r : ValidationResult}
    (h : (if X.is_empty = true then Except.ok out else Except.error X) = .error r) :
    r.issues ≠ [] := by
  split at h
  · simp at h
  · next hne =>
    obtain rfl : _ = r := (Except.error.injEq _ _).mp h
    exact issues_ne_of_not_empty (by simpa using hne)

theorem exceptMap_eq_error {α β : Type} {f : α → β} {x : Except ValidationResult α}
    {r : ValidationResult} (h : Except.map f x = .error r) : x = .error r := by
  cases x with
  | ok a => simp [Except.map] at h
  | error e => simpa [Except.map] using h

theorem toExceptStr_error {o : Option ValidationError} {s : String} {r : ValidationResult}
    (h : toExceptStr o s = .error r) : ∃ e, o = some e ∧ r = .with_error e := by
  cases o with
  | none => simp [toExceptStr] at h
  | some e => exact ⟨e, rfl, by simpa [toExceptStr] using h.symm⟩

theorem validateString_eq (cfg : StringConfig) (v : Value) :
    validateString cfg v = match v.as_str with
      | some s => toExceptStr (stringViolation cfg s) s
      | none => .error (ValidationResult.with_error
          (.invalidType .string (.fromValue v))) := by
  unfold validateString
  cases v.as_str with
  | some s => exact stringCheckMin_eq cfg s
  | none => rfl

theorem validateString_error_shape {cfg : StringConfig} {v : Value} {r : ValidationResult}
    (h : validateString cfg v = .error r) : ∃ e, r = .with_error e := by
  rw [validateString_eq] at h
  cases hv : v.as_str with
  | some s =>
    rw [hv] at h
    obtain ⟨e, _, he⟩ := toExceptStr_error h
    exact ⟨e, he⟩
  | none =>
    rw [hv] at h
    exact ⟨_, ((Except.error.injEq _ _).mp h).symm⟩

theorem numCheckNonpositive_shape {cfg : NumberConfig} {q : ℚ} {r : ValidationResult}
    (h : numCheckNonpositive cfg q = .error r) : ∃ e, r = .with_error e := by
  unfold numCheckNonpositive at h
  split at h
  · exact ⟨_, ((Except.error.injEq _ _).mp h).symm⟩
  · simp at h

theorem numCheckNonnegative_shape {cfg : NumberConfig} {q : ℚ} {r : ValidationResult}
    (h : numCheckNonnegative cfg q = .error r) : ∃ e, r = .with_error e := by
  unfold numCheckNonnegative at h
  split at h
  · exact ⟨_, ((Except.error.injEq _ _).mp h).symm⟩
  · exact numCheckNonpositive_shape h

theorem numCheckNegative_shape {cfg : NumberConfig} {q : ℚ} {r : ValidationResult}
    (h : numCheckNegative cfg q = .error r) : ∃ e, r = .with_error e := by
  unfold numCheckNegative at h
  split at h
  · exact ⟨_, ((Except.error.injEq _ _).mp h).symm⟩
  · exact numCheckNonnegative_shape h

theorem numCheckPositive_shape {cfg : NumberConfig} {q : ℚ} {r : ValidationResult}
    (h : numCheckPositive cfg q = .error r) : ∃ e, r = .with_error e := by
  unfold numCheckPositive at h
  split at h
  · exact ⟨_, ((Except.error.injEq _ _).mp h).symm⟩
  · exact numCheckNegative_shape h

theorem numCheckMax_shape {cfg : NumberConfig} {q : ℚ} {r : ValidationResult}
    (h : numCheckMax cfg q = .error r) : ∃ e, r = .with_error e := by
  unfold numCheckMax at h
  split at h
  · split at h
    · exact ⟨_, ((Except.error.injEq _ _).mp h).symm⟩
    · exact numCheckPositive_shape h
  · exact numCheckPositive_shape h

theorem numCheckMin_shape {cfg : NumberConfig} {q : ℚ} {r : ValidationResult}
    (h : numCheckMin cfg q = .error r) : ∃ e, r = .with_error e := by
  unfold numCheckMin at h
  split at h
  · split at h
    · exact ⟨_, ((Except.error.injEq _ _).mp h).symm⟩
    · exact numCheckMax_shape h
  · exact numCheckMax_shape h

theorem numCheckFinite_shape {cfg : NumberConfig} {q : ℚ} {r : ValidationResult}
    (h : numCheckFinite cfg q = .error r) : ∃ e, r = .with_error e := by
  unfold numCheckFinite at h
  split at h
  · exact ⟨_, ((Except.error.injEq _ _).mp h).symm⟩
  · exact numCheckMin_shape h

theorem numCheckInt_shape {cfg : NumberConfig} {q : ℚ} {r : ValidationResult}
    (h : numCheckInt cfg q = .error r) : ∃ e, r = .with_error e := by
  unfold numCheckInt at h
  split at h
  · exact ⟨_, ((Except.error.injEq _ _).mp h).symm⟩
  · exact numCheckFinite_shape h

theorem validateNumber_error_shape {cfg : NumberConfig} {v : Value} {r : ValidationResult}
    (h : validateNumber cfg v = .error r) : ∃ e, r = .with_error e := by
  unfold validateNumber at h
  split at h
  · exact numCheckInt_shape h
  · exact ⟨_, ((Except.error.injEq _ _).mp h).symm⟩

theorem validateBoolean_error_shape {v : Value} {r : ValidationResult}
    (h : validateBoolean v = .error r) : ∃ e, r = .with_error e := by
  unfold validateBoolean at h
  split at h
  · simp at h
  · exact ⟨_, ((Except.error.injEq _ _).mp h).symm⟩

theorem validateNull_error_shape {v : Value} {r : ValidationResult}
    (h : validateNull v = .error r) : ∃ e, r = .with_error e := by
  unfold validateNull at h
  split at h
  · simp at h
  · exact ⟨_, ((Except.error.injEq _ _).mp h).symm⟩

theorem validateLiteralStr_error_shape {expected : String} {v : Value} {r : ValidationResult}
    (h : validateLiteralStr expected v = .error r) : ∃ e, r = .with_error e := by
  unfold validateLiteralStr at h
  split at h
  · split at h
    · simp at h
    · exact ⟨_, ((Except.error.injEq _ _).mp h).symm⟩
  · exact ⟨_, ((Except.error.injEq _ _).mp h).symm⟩

theorem validateLiteralNum_error_shape {expected : ℚ} {v : Value} {r : ValidationResult}
    (h : validateLiteralNum expected v = .error r) : ∃ e, r = .with_error e := by
  unfold validateLiteralNum at h
  split at h
  · split at h
    · simp at h
    · exact ⟨_, ((Except.error.injEq _ _).mp h).symm⟩
  · exact ⟨_, ((Except.error.injEq _ _).mp h).symm⟩

theorem arrayElemsRun_error_ne {velem : Value → Except ValidationResult VOut}
    {array : List Value} {r : ValidationResult}
    (h : arrayElemsRun velem array = .error r) : r.issues ≠ [] := by
  simp only [arrayElemsRun] at h
  exact ifGuard_error_ne h

theorem arrayCheckMax_error_ne {max_length : Option Nat}
    {velem : Value → Except ValidationResult VOut} {array : List Value} {r : ValidationResult}
    (h : arrayCheckMax max_length velem array = .error r) : r.issues ≠ [] := by
  unfold arrayCheckMax at h
  split at h
  · split at h
    · obtain rfl : _ = r := (Except.error.injEq _ _).mp h
      exact with_error_issues_ne _
    · exact arrayElemsRun_error_ne h
  · exact arrayElemsRun_error_ne h

theorem arrayCheckMin_error_ne {min_length max_length : Option Nat}
    {velem : Value → Except ValidationResult VOut} {array : List Value} {r : ValidationResult}
    (h : arrayCheckMin min_length max_length velem array = .error r) : r.issues ≠ [] := by
  unfold arrayCheckMin at h
  split at h
  · split at h
    · obtain rfl : _ = r := (Except.error.injEq _ _).mp h
      exact with_error_issues_ne _
    · exact arrayCheckMax_error_ne h
  · exact arrayCheckMax_error_ne h

theorem validateUnion_error_shape : ∀ (vs : SchemaList) (v : Value)
    (acc : List ValidationIssue) (r : ValidationResult),
    validateUnion vs v acc = .error r →
    ∃ issues, r = .with_error (.invalidUnion issues)
  | .nil, v, acc, r, h => by
    rw [validateUnion] at h
    exact ⟨acc, ((Except.error.injEq _ _).mp h).symm⟩
  | .cons s rest, v, acc, r, h => by
    rw [validateUnion] at h
    split at h
    · simp at h
    · exact validateUnion_error_shape rest v _ r h

/-- C1's engine half: every error a validate call returns carries at least
one issue. -/
theorem validate_error_issues_ne (s : Schema) (v : Value) (r : ValidationResult)
    (h : validate s v = .error r) : r.issues ≠ [] := by
  cases s with
  | stringS cfg =>
    rw [validate] at h
    obtain ⟨e, rfl⟩ := validateString_error_shape (exceptMap_eq_error h)
    exact with_error_issues_ne e
  | numberS cfg =>
    rw [validate] at h
    obtain ⟨e, rfl⟩ := validateNumber_error_shape (exceptMap_eq_error h)
    exact with_error_issues_ne e
  | booleanS =>
    rw [validate] at h
    obtain ⟨e, rfl⟩ := validateBoolean_error_shape (exceptMap_eq_error h)
    exact with_error_issues_ne e
  | nullS =>
    rw [validate] at h
    obtain ⟨e, rfl⟩ := validateNull_error_shape (exceptMap_eq_error h)
    exact with_error_issues_ne e
  | literalStrS expected =>
    rw [validate] at h
    obtain ⟨e, rfl⟩ := validateLiteralStr_error_shape (exceptMap_eq_error h)
    exact with_error_issues_ne e
  | literalNumS expected =>
    rw [validate] at h
    obtain ⟨e, rfl⟩ := validateLiteralNum_error_shape (exceptMap_eq_error h)
    exact with_error_issues_ne e
  | optionalS inner =>
    rw [validate] at h
    split at h
    · simp at h
    · exact validate_error_issues_ne inner v r (exceptMap_eq_error h)
  | arrayS mn mx elem =>
    rw [validate] at h
    split at h
    · exact arrayCheckMin_error_ne h
    · obtain rfl : _ = r := (Except.error.injEq _ _).mp h
      exact with_error_issues_ne _
  | unionS variants =>
    rw [validate] at h
    obtain ⟨issues, rfl⟩ := validateUnion_error_shape _ _ _ _ h
    exact with_error_issues_ne _
  | tupleS elements =>
    simp only [validate] at h
    split at h
    · obtain rfl : _ = r := (Except.error.injEq _ _).mp h
      exact with_error_issues_ne _
    · split at h
      · obtain rfl : _ = r := (Except.error.injEq _ _).mp h
        exact with_error_issues_ne _
      · exact ifGuard_error_ne h
  | objectS fields strict =>
    simp only [validate] at h
    split at h
    · obtain rfl : _ = r := (Except.error.injEq _ _).mp h
      exact with_error_issues_ne _
    · exact ifGuard_error_ne h

end ZodRs

namespace ZodRs

/-- C1: for every schema and value, validation succeeds exactly when the
associated result has zero issues — every error `validate` returns carries
a non-empty issue list (so no success state has issues), and
`ValidationResult::into_result` totally (without panicking) returns `Ok`
for an empty result and `Err(self)` for a non-empty one. -/
theorem c1_success_iff_no_issues :
    (∀ (s : Schema) (v : Value) (r : ValidationResult),
      validate s v = .error r → r.issues ≠ []) ∧
    (∀ r : ValidationResult,
      (r.issues = [] → r.into_result = .ok ()) ∧
      (r.issues ≠ [] → r.into_result = .error r)) :=
  ⟨validate_error_issues_ne, fun r =>
    ⟨fun h => by simp [ValidationResult.into_result, ValidationResult.is_empty, h],
     fun h => by simp [ValidationResult.into_result, ValidationResult.is_empty, h]⟩⟩

/-- Witness for C1 at concrete inputs. -/
theorem c1_success_iff_no_issues_witness :
    ((⟨[.mk [] (.tooSmall .string "5" true)]⟩ : ValidationResult).issues ≠ []) ∧
    ((⟨[.mk [] .required]⟩ : ValidationResult).into_result =
      .error ⟨[.mk [] .required]⟩) :=
  ⟨c1_success_iff_no_issues.1 (.stringS (string.min 5)) (.str "hi") _ rfl,
   (c1_success_iff_no_issues.2 ⟨[.mk [] .required]⟩).2 (by simp)⟩

/-- C9: the optional wrapper accepts absence as "no value" without
invoking the inner schema (the result is `vNone` for every inner schema);
any other input delegates entirely to the inner schema, errors and paths
unchanged; concretely, `optional(string().min(5))` accepts null but
rejects a present too-short string. -/
theorem c9_optional_null_transparency :
    (∀ inner : Schema, validate (.optionalS inner) .null = .ok .vNone) ∧
    (∀ (inner : Schema) (v : Value), v.is_null = false →
      validate (.optionalS inner) v = (validate inner v).map .vSome) ∧
    (validate (.optionalS (.stringS (string.min 5))) .null = .ok .vNone) ∧
    (validate (.optionalS (.stringS (string.min 5))) (.str "hi") =
      .error ⟨[.mk [] (.tooSmall .string "5" true)]⟩) := by
  refine ⟨fun inner => rfl, fun inner v h => ?_, rfl, rfl⟩
  rw [validate, h]
  simp

/-- Witness for C9 at concrete inputs. -/
theorem c9_optional_null_transparency_witness :
    validate (.optionalS (.stringS (string.min 5))) (.str "hi") =
      (validate (.stringS (string.min 5)) (.str "hi")).map .vSome :=
  c9_optional_null_transparency.2.1 (.stringS (string.min 5)) (.str "hi") rfl

/-- C7: `number().int()` accepts 5 and 5.0 and rejects 5.5 (integrality is
a zero fractional part, not a storage type); `number().positive()` rejects
0; `number().nonnegative()` accepts 0; and the min/max bound checks are
inclusive (a value is rejected only when strictly below min or strictly
above max). -/
theorem c7_number_integer_and_sign_semantics :
    (validate (.numberS number.int) (.num 5) = .ok (.vNum 5)) ∧
    (validate (.numberS number.int) (.num (5.0 : ℚ)) = .ok (.vNum 5)) ∧
    (validate (.numberS number.int) (.num (5.5 : ℚ)) =
      .error ⟨[.mk [] (.invalidType (.custom "integer") (.custom "float"))]⟩) ∧
    (validate (.numberS number.positiveC) (.num 0) =
      .error ⟨[.mk [] (.invalidNumber .positive)]⟩) ∧
    (validate (.numberS number.nonnegativeC) (.num 0) = .ok (.vNum 0)) ∧
    (∀ m q : ℚ, validate (.numberS (number.minC m)) (.num q) =
      if q < m then .error ⟨[.mk [] (.tooSmall .number (fmtF64 m) true)]⟩
      else .ok (.vNum q)) ∧
    (∀ m q : ℚ, validate (.numberS (number.maxC m)) (.num q) =
      if q > m then .error ⟨[.mk [] (.tooBig .number (fmtF64 m) true)]⟩
      else .ok (.vNum q)) := by
  refine ⟨by rfl, ?_, ?_, by rfl, by rfl, ?_, ?_⟩
  · rw [show (5.0 : ℚ) = 5 by norm_num]
    rfl
  · rw [show (5.5 : ℚ) = mkRat 11 2 by rw [Rat.mkRat_eq_div]; norm_num]
    rfl
  · intro m q
    simp only [validate, validateNumber, Value.as_f64, number, NumberConfig.minC,
      numCheckInt, numCheckFinite, numCheckMin, numCheckMax, numCheckPositive,
      numCheckNegative, numCheckNonnegative, numCheckNonpositive, fractIsZero,
      ratIsFinite, Bool.false_and, Bool.and_false, Bool.not_false, Bool.false_eq_true,
      if_false, false_and, decide_False, ite_false]
    split <;> simp [ValidationResult.with_error, Except.map]
  · intro m q
    simp only [validate, validateNumber, Value.as_f64, number, NumberConfig.maxC,
      numCheckInt, numCheckFinite, numCheckMin, numCheckMax, numCheckPositive,
      numCheckNegative, numCheckNonnegative, numCheckNonpositive, fractIsZero,
      ratIsFinite, Bool.false_and, Bool.and_false, Bool.not_false, Bool.false_eq_true,
      if_false, false_and, decide_False, ite_false]
    split <;> simp [ValidationResult.with_error, Except.map]

/-- Witness for C7 at concrete inputs. -/
theorem c7_number_integer_and_sign_semantics_witness :
    validate (.numberS (number.minC 3)) (.num 3) = .ok (.vNum 3) := by
  have h := c7_number_integer_and_sign_semantics.2.2.2.2.2.1 3 3
  simpa using h

/-- C5: a mapping schema with field "a" holding a list of min-length-2
strings, validated against `{"a": ["ok","x","ok"]}`, fails with exactly
one issue whose path is `["a","1"]`: each composite prepends its segment
(field name or stringified index) onto nested issues before merging. -/
theorem c5_nested_path_prefixing :
    validate
      (.objectS (toFieldList [("a", false, .arrayS none none (.stringS (string.min 2)))]) false)
      (.obj [("a", .arr [.str "ok", .str "x", .str "ok"])]) =
    .error ⟨[.mk ["a", "1"] (.tooSmall .string "2" true)]⟩ := rfl

end ZodRs

namespace ZodRs

theorem validateUnion_skip {s0 : Schema} {v : Value} {e : ValidationResult}
    (rest : SchemaList) (acc : List ValidationIssue)
    (h : validate s0 v = .error e) :
    validateUnion (.cons s0 rest) v acc = validateUnion rest v (acc ++ e.issues) := by
  rw [validateUnion, h]

theorem validateUnion_all_fail {v : Value} : ∀ (vs : List Schema) (acc : List ValidationIssue),
    (∀ s' ∈ vs, ∃ r, validate s' v = .error r) →
    validateUnion (toSchemaList vs) v acc =
      .error (.with_error (.invalidUnion
        (acc ++ (vs.map (fun s' => errIssues (validate s' v))).flatten)))
  | [], acc, _ => by simp [toSchemaList, validateUnion]
  | s :: rest, acc, h => by
    obtain ⟨r, hr⟩ := h s (by simp)
    rw [toSchemaList, validateUnion_skip _ _ hr,
      validateUnion_all_fail rest (acc ++ r.issues) (fun s' hs' => h s' (by simp [hs']))]
    simp [hr, errIssues, List.append_assoc]

theorem validateUnion_first_ok {v : Value} {s0 : Schema} {out : VOut} : ∀ (pre : List Schema)
    (post : List Schema) (acc : List ValidationIssue),
    (∀ s' ∈ pre, ∃ r, validate s' v = .error r) →
    validate s0 v = .ok out →
    validateUnion (toSchemaList (pre ++ s0 :: post)) v acc = .ok out
  | [], post, acc, _, hok => by
    simp only [List.nil_append, toSchemaList]
    rw [validateUnion, hok]
  | s :: rest, post, acc, hpre, hok => by
    obtain ⟨r, hr⟩ := hpre s (by simp)
    rw [List.cons_append, toSchemaList, validateUnion_skip _ _ hr,
      validateUnion_first_ok rest post _ (fun s' hs' => hpre s' (by simp [hs'])) hok]

/-- C2: union tries its variants in configuration order against the same
input; the first success is returned immediately; when every variant
fails, the single issue is an `InvalidUnion` holding the concatenation of
all variants' issues in variant order without deduplication; and
`union().variant(string().min(1)).variant(string().min(5))` on `"hi"`
succeeds via the first variant returning `"hi"` unchanged. -/
theorem c2_union_first_match_wins :
    (∀ (pre post : List Schema) (s0 : Schema) (v : Value) (out : VOut),
      (∀ s' ∈ pre, ∃ r, validate s' v = .error r) →
      validate s0 v = .ok out →
      validate (.unionS (toSchemaList (pre ++ s0 :: post))) v = .ok out) ∧
    (∀ (vs : List Schema) (v : Value),
      (∀ s' ∈ vs, ∃ r, validate s' v = .error r) →
      validate (.unionS (toSchemaList vs)) v =
        .error (.with_error (.invalidUnion
          ((vs.map (fun s' => errIssues (validate s' v))).flatten)))) ∧
    (validate (.unionS (toSchemaList [.stringS (string.min 1), .stringS (string.min 5)]))
      (.str "hi") = .ok (.vStr "hi")) := by
  refine ⟨fun pre post s0 v out hpre hok => ?_, fun vs v hall => ?_, by rfl⟩
  · rw [validate]
    exact validateUnion_first_ok pre post [] hpre hok
  · rw [validate]
    simpa using validateUnion_all_fail vs [] hall

/-- Witness for C2 at concrete inputs. -/
theorem c2_union_first_match_wins_witness :
    validate (.unionS (toSchemaList ([.numberS number] ++ [.stringS string]))) (.str "a") =
      .ok (.vStr "a") :=
  c2_union_first_match_wins.1 [.numberS number] [] (.stringS string) (.str "a") (.vStr "a")
    (by intro s' hs'
        simp only [List.mem_singleton] at hs'
        exact ⟨ValidationResult.with_error (.invalidType .number .string),
          by subst hs'; rfl⟩)
    (by rfl)

end ZodRs

namespace ZodRs

theorem elemsGo_issues (f : Value → Except ValidationResult VOut) :
    ∀ (items : List Value) (idx : Nat),
    (elemsGo f items idx).2.issues =
      ((items.enumFrom idx).map (fun p =>
        match f p.2 with
        | .ok _ => []
        | .error r => (r.prefix_path (toString p.1)).issues)).flatten
  | [], idx => by simp [elemsGo, ValidationResult.new, List.enumFrom]
  | item :: rest, idx => by
    cases hf : f item with
    | ok out =>
      simp [elemsGo, hf, List.enumFrom, elemsGo_issues f rest (idx + 1)]
    | error e =>
      simp [elemsGo, hf, List.enumFrom, elemsGo_issues f rest (idx + 1),
        ValidationResult.merge]

theorem elemsGo_outs (f : Value → Except ValidationResult VOut) :
    ∀ (items : List Value) (idx : Nat),
    (elemsGo f items idx).1 = toVOutList (items.filterMap (fun it => (f it).toOption))
  | [], idx => by simp [elemsGo, toVOutList]
  | item :: rest, idx => by
    cases hf : f item with
    | ok out =>
      simp [elemsGo, hf, Except.toOption, toVOutList, elemsGo_outs f rest (idx + 1)]
    | error e =>
      simp [elemsGo, hf, Except.toOption, toVOutList, elemsGo_outs f rest (idx + 1)]

/-- C6: a list schema rejects non-list inputs with InvalidType; length
bounds are checked before any element validation, a violated bound giving
a single TooSmall/TooBig issue with list origin and no element issues;
otherwise every element is validated (no short-circuit), each failing
index contributing its issues prefixed with that index, and the validated
element list is returned exactly when zero issues were collected. -/
theorem c6_array_bounds_then_elements :
    (∀ (mn mx : Option Nat) (elem : Schema) (v : Value), v.as_array = none →
      validate (.arrayS mn mx elem) v =
        .error (.with_error (.invalidType .array (.fromValue v)))) ∧
    (∀ (m : Nat) (mx : Option Nat) (elem : Schema) (items : List Value),
      items.length < m →
      validate (.arrayS (some m) mx elem) (.arr items) =
        .error (.with_error (.tooSmall .array (toString m) true))) ∧
    (∀ (mn : Option Nat) (m : Nat) (elem : Schema) (items : List Value),
      (∀ m', mn = some m' → ¬items.length < m') → items.length > m →
      validate (.arrayS mn (some m) elem) (.arr items) =
        .error (.with_error (.tooBig .array (toString m) true))) ∧
    (∀ (mn mx : Option Nat) (elem : Schema) (items : List Value),
      (∀ m', mn = some m' → ¬items.length < m') →
      (∀ m', mx = some m' → ¬items.length > m') →
      validate (.arrayS mn mx elem) (.arr items) =
        if (specListIssues elem items).isEmpty then
          .ok (.vVec (toVOutList (items.filterMap fun it => (validate elem it).toOption)))
        else .error ⟨specListIssues elem items⟩) := by
  have harr : ∀ (mn mx : Option Nat) (elem : Schema) (items : List Value),
      validate (.arrayS mn mx elem) (.arr items) =
        arrayCheckMin mn mx (validate elem) items := fun _ _ _ _ => rfl
  refine ⟨fun mn mx elem v hv => ?_, fun m mx elem items hlt => ?_,
    fun mn m elem items hmin hgt => ?_, fun mn mx elem items hmin hmax => ?_⟩
  · rw [validate]
    cases v <;> simp_all [Value.as_array]
  · rw [harr, arrayCheckMin, if_pos hlt]
  · rw [harr]
    have hmax : arrayCheckMax (some m) (validate elem) items =
        .error (.with_error (.tooBig .array (toString m) true)) := by
      rw [arrayCheckMax, if_pos hgt]
    cases mn with
    | none => rw [arrayCheckMin]; exact hmax
    | some m' => rw [arrayCheckMin, if_neg (hmin m' rfl)]; exact hmax
  · rw [harr]
    have hrun : arrayElemsRun (validate elem) items =
        if (specListIssues elem items).isEmpty then
          .ok (.vVec (toVOutList (items.filterMap fun it => (validate elem it).toOption)))
        else .error ⟨specListIssues elem items⟩ := by
      rcases hE : elemsGo (validate elem) items 0 with ⟨outs, ⟨issL⟩⟩
      have hiss : issL = specListIssues elem items := by
        have h1 := elemsGo_issues (validate elem) items 0
        rw [hE] at h1
        simpa [specListIssues, elemIssuesAt, List.enum] using h1
      have houts : outs = toVOutList (items.filterMap fun it => (validate elem it).toOption) := by
        have h2 := elemsGo_outs (validate elem) items 0
        rw [hE] at h2
        exact h2
      subst hiss
      subst houts
      simp only [arrayElemsRun]
      rw [hE]
      simp [ValidationResult.is_empty]
    have hcmax : arrayCheckMax mx (validate elem) items =
        if (specListIssues elem items).isEmpty then
          .ok (.vVec (toVOutList (items.filterMap fun it => (validate elem it).toOption)))
        else .error ⟨specListIssues elem items⟩ := by
      cases mx with
      | none => rw [arrayCheckMax]; exact hrun
      | some m' => rw [arrayCheckMax, if_neg (hmax m' rfl)]; exact hrun
    cases mn with
    | none => rw [arrayCheckMin]; exact hcmax
    | some m' => rw [arrayCheckMin, if_neg (hmin m' rfl)]; exact hcmax

/-- Witness for C6 at concrete inputs. -/
theorem c6_array_bounds_then_elements_witness :
    validate (.arrayS none none (.stringS (string.min 2))) (.arr [.str "ok", .str "x"]) =
      if (specListIssues (.stringS (string.min 2)) [.str "ok", .str "x"]).isEmpty then
        .ok (.vVec (toVOutList ([.str "ok", .str "x"].filterMap
          fun it => (validate (.stringS (string.min 2)) it).toOption)))
      else .error ⟨specListIssues (.stringS (string.min 2)) [.str "ok", .str "x"]⟩ :=
  c6_array_bounds_then_elements.2.2.2 none none (.stringS (string.min 2))
    [.str "ok", .str "x"] (fun m' h => by cases h) (fun m' h => by cases h)

end ZodRs

namespace ZodRs

theorem validateTuple_issues : ∀ (es : SchemaList) (items : List Value) (idx : Nat),
    (validateTuple es items idx).2.issues =
      (((es.toList.zip items).enumFrom idx).map (fun p =>
        match (validate p.2.1 p.2.2).map serializeOut with
        | .ok _ => []
        | .error r => (r.prefix_path (toString p.1)).issues)).flatten
  | .nil, items, idx => by
    simp [validateTuple, SchemaList.toList, ValidationResult.new]
  | .cons s rest, [], idx => by
    simp [validateTuple, SchemaList.toList, ValidationResult.new]
  | .cons s rest, item :: items, idx => by
    cases hf : (validate s item).map serializeOut with
    | ok out =>
      simp [validateTuple, hf, SchemaList.toList, List.enumFrom, List.zip,
        validateTuple_issues rest items (idx + 1)]
    | error e =>
      simp [validateTuple, hf, SchemaList.toList, List.enumFrom, List.zip,
        validateTuple_issues rest items (idx + 1), ValidationResult.merge]

theorem validateTuple_outs : ∀ (es : SchemaList) (items : List Value) (idx : Nat),
    (validateTuple es items idx).1 =
      (es.toList.zip items).filterMap
        (fun q => ((validate q.1 q.2).map serializeOut).toOption)
  | .nil, items, idx => by
    simp [validateTuple, SchemaList.toList]
  | .cons s rest, [], idx => by
    simp [validateTuple, SchemaList.toList]
  | .cons s rest, item :: items, idx => by
    cases hf : (validate s item).map serializeOut with
    | ok out =>
      simp [validateTuple, hf, SchemaList.toList, Except.toOption, List.zip,
        validateTuple_outs rest items (idx + 1)]
    | error e =>
      simp [validateTuple, hf, SchemaList.toList, Except.toOption, List.zip,
        validateTuple_outs rest items (idx + 1)]

/-- C8: a tuple schema rejects non-list inputs with InvalidType; a list of
the wrong length fails with exactly one Custom issue and no per-element
issues; a list of the exact arity has each position validated against its
own element schema, failures prefixed by their index, succeeding exactly
when no position produced an issue. -/
theorem c8_tuple_arity_then_positions :
    (∀ (es : SchemaList) (v : Value), v.as_array = none →
      validate (.tupleS es) v =
        .error (.with_error (.invalidType .array (.fromValue v)))) ∧
    (∀ (es : SchemaList) (items : List Value), items.length ≠ es.length →
      validate (.tupleS es) (.arr items) =
        .error (.with_error (.custom ("Expected tuple of " ++ toString es.length ++
          " elements, got " ++ toString items.length)))) ∧
    (∀ (es : SchemaList) (items : List Value), items.length = es.length →
      validate (.tupleS es) (.arr items) =
        if (specTupleIssues es.toList items).isEmpty then
          .ok (.vValue (.arr (specTupleOuts es.toList items)))
        else .error ⟨specTupleIssues es.toList items⟩) := by
  refine ⟨fun es v hv => ?_, fun es items hne => ?_, fun es items hlen => ?_⟩
  · rw [validate]
    cases v <;> simp_all [Value.as_array]
  · simp only [validate, Value.as_array]
    rw [if_pos hne]
  · simp only [validate, Value.as_array]
    rw [if_neg (by simp [hlen])]
    rcases hE : validateTuple es items 0 with ⟨outs, ⟨issL⟩⟩
    have hiss : issL = specTupleIssues es.toList items := by
      have h1 := validateTuple_issues es items 0
      rw [hE] at h1
      simpa [specTupleIssues, tupleIssuesAt, List.enum] using h1
    have houts : outs = specTupleOuts es.toList items := by
      have h2 := validateTuple_outs es items 0
      rw [hE] at h2
      simpa [specTupleOuts] using h2
    subst hiss
    subst houts
    simp [ValidationResult.is_empty]

/-- Witness for C8 at concrete inputs. -/
theorem c8_tuple_arity_then_positions_witness :
    validate (.tupleS (toSchemaList [.stringS string])) (.arr [.str "x"]) =
      if (specTupleIssues (toSchemaList [.stringS string]).toList [.str "x"]).isEmpty then
        .ok (.vValue (.arr (specTupleOuts (toSchemaList [.stringS string]).toList [.str "x"])))
      else .error ⟨specTupleIssues (toSchemaList [.stringS string]).toList [.str "x"]⟩ :=
  c8_tuple_arity_then_positions.2.2 (toSchemaList [.stringS string]) [.str "x"] (by rfl)

end ZodRs

namespace ZodRs

theorem as_str_eq_some {v : Value} {s : String} (h : v.as_str = some s) : v = .str s := by
  cases v <;> simp_all [Value.as_str]

/-- C10: a failed string validation reports exactly one issue; the checks
run in the fixed order type, min, max, starts-with, ends-with, includes,
regex, email, url (byte lengths), stopping at the first violation — the
outcome is fully determined by the first violated check
(`stringFirstViolation`), and a multi-byte string passes a min bound by
byte count. -/
theorem c10_string_single_issue_ordered :
    (∀ (cfg : StringConfig) (v : Value) (r : ValidationResult),
      validate (.stringS cfg) v = .error r → r.issues.length = 1) ∧
    (∀ (cfg : StringConfig) (v : Value) (e : ValidationError),
      stringFirstViolation cfg v = some e →
      validate (.stringS cfg) v = .error (.with_error e)) ∧
    (∀ (cfg : StringConfig) (v : Value),
      stringFirstViolation cfg v = none →
      ∃ s, v = .str s ∧ validate (.stringS cfg) v = .ok (.vStr s)) ∧
    (validate (.stringS (string.min 3)) (.str "é!") = .ok (.vStr "é!")) := by
  have hval : ∀ (cfg : StringConfig) (v : Value),
      validate (.stringS cfg) v = (validateString cfg v).map .vStr :=
    fun _ _ => rfl
  have h2 : ∀ (cfg : StringConfig) (v : Value) (e : ValidationError),
      stringFirstViolation cfg v = some e →
      validate (.stringS cfg) v = .error (.with_error e) := by
    intro cfg v e h
    rw [hval, validateString_eq]
    unfold stringFirstViolation at h
    cases hv : v.as_str with
    | some s =>
      simp only [hv] at h
      dsimp only
      rw [h]
      simp [toExceptStr, Except.map]
    | none =>
      simp only [hv] at h
      obtain rfl : _ = e := (Option.some.injEq _ _).mp h
      dsimp only
      simp [Except.map]
  have h3 : ∀ (cfg : StringConfig) (v : Value),
      stringFirstViolation cfg v = none →
      ∃ s, v = .str s ∧ validate (.stringS cfg) v = .ok (.vStr s) := by
    intro cfg v h
    unfold stringFirstViolation at h
    cases hv : v.as_str with
    | some s =>
      simp only [hv] at h
      refine ⟨s, as_str_eq_some hv, ?_⟩
      rw [hval, validateString_eq, hv]
      dsimp only
      rw [h]
      simp [toExceptStr, Except.map]
    | none => simp [hv] at h
  refine ⟨?_, h2, h3, by rfl⟩
  intro cfg v r h
  cases hfv : stringFirstViolation cfg v with
  | some e =>
    rw [h2 cfg v e hfv] at h
    obtain rfl : _ = r := (Except.error.injEq _ _).mp h
    simp [ValidationResult.with_error]
  | none =>
    obtain ⟨s, rfl, hok⟩ := h3 cfg v hfv
    rw [hok] at h
    cases h

/-- Witness for C10 at concrete inputs. -/
theorem c10_string_single_issue_ordered_witness :
    validate (.stringS ((string.min 5).startsWithC "z")) (.str "hi") =
      .error (.with_error (.tooSmall .string "5" true)) :=
  c10_string_single_issue_ordered.2.1 ((string.min 5).startsWithC "z") (.str "hi")
    (.tooSmall .string "5" true) (by rfl)

end ZodRs

namespace ZodRs

theorem mem_mapInsert_self : ∀ (m : List (String × Value)) (k : String) (v : Value),
    (k, v) ∈ mapInsert m k v
  | [], k, v => by simp [mapInsert]
  | (k', v') :: rest, k, v => by
    simp only [mapInsert]
    split
    · exact List.mem_cons_self _ _
    · split
      · exact List.mem_cons_self _ _
      · exact List.mem_cons_of_mem _ (mem_mapInsert_self rest k v)

theorem mem_mapInsert_of_ne : ∀ (m : List (String × Value)) (a : String) (b : Value)
    (k : String) (v : Value), (a, b) ∈ m → a ≠ k → (a, b) ∈ mapInsert m k v
  | [], a, b, k, v, hm, _ => by simp at hm
  | (k', v') :: rest, a, b, k, v, hm, hne => by
    simp only [mapInsert]
    split
    · exact List.mem_cons_of_mem _ hm
    · split
      · next hkeq =>
        rcases List.mem_cons.mp hm with heq | hmem
        · cases heq
          exact absurd (eq_of_beq hkeq).symm hne
        · exact List.mem_cons_of_mem _ hmem
      · rcases List.mem_cons.mp hm with heq | hmem
        · exact heq ▸ List.mem_cons_self _ _
        · exact List.mem_cons_of_mem _ (mem_mapInsert_of_ne rest a b k v hmem hne)

theorem mem_foldl_mapInsert_preserve : ∀ (ps : List (String × Value))
    (m : List (String × Value)) (a : String) (b : Value),
    (a, b) ∈ m → (∀ p ∈ ps, p.1 ≠ a) →
    (a, b) ∈ ps.foldl (fun m kv => mapInsert m kv.1 kv.2) m
  | [], m, a, b, hm, _ => hm
  | p :: ps, m, a, b, hm, hkeys => by
    rw [List.foldl_cons]
    exact mem_foldl_mapInsert_preserve ps _ a b
      (mem_mapInsert_of_ne m a b p.1 p.2 hm (fun h => hkeys p (List.mem_cons_self _ _) h.symm))
      (fun q hq => hkeys q (List.mem_cons_of_mem _ hq))

theorem mem_foldl_mapInsert_of_mem : ∀ (ps : List (String × Value))
    (m : List (String × Value)) (a : String) (b : Value),
    (a, b) ∈ ps → (ps.map Prod.fst).Nodup →
    (a, b) ∈ ps.foldl (fun m kv => mapInsert m kv.1 kv.2) m
  | [], m, a, b, hm, _ => by simp at hm
  | p :: ps, m, a, b, hm, hnd => by
    rw [List.map_cons] at hnd
    obtain ⟨h1, h2⟩ := List.nodup_cons.mp hnd
    rw [List.foldl_cons]
    rcases List.mem_cons.mp hm with heq | hmem
    · subst heq
      refine mem_foldl_mapInsert_preserve ps _ a b (mem_mapInsert_self m a b) ?_
      intro q hq h
      apply h1
      have hq1 : q.1 ∈ List.map Prod.fst ps := List.mem_map_of_mem Prod.fst hq
      simpa [h] using hq1
    · exact mem_foldl_mapInsert_of_mem ps _ a b hmem h2

end ZodRs


namespace ZodRs

theorem validateFields_issues : ∀ (fl : FieldList) (entries : List (String × Value)),
    (validateFields fl entries).2.issues = fl.toList.flatMap (fieldIssuesAt entries)
  | .nil, entries => by simp [validateFields, FieldList.toList, ValidationResult.new]
  | .cons name isOpt s rest, entries => by
    cases hf : fieldGo isOpt (validate s) (mapGet entries name) with
    | ok out =>
      simp [validateFields, hf, FieldList.toList, fieldIssuesAt,
        validateFields_issues rest entries]
    | error e =>
      simp [validateFields, hf, FieldList.toList, fieldIssuesAt,
        ValidationResult.merge, validateFields_issues rest entries]

theorem contains_key_any : ∀ (fl : FieldList) (k : String),
    fl.contains_key k = fl.toList.any (fun f => f.1 == k)
  | .nil, k => rfl
  | .cons name isOpt s rest, k => by
    simp [FieldList.contains_key, FieldList.toList, contains_key_any rest k]

theorem any_perm {α : Type} {l1 l2 : List α} (h : l1.Perm l2) (p : α → Bool) :
    l1.any p = l2.any p := by
  cases hb : l1.any p with
  | true =>
    obtain ⟨x, hx, hpx⟩ := List.any_eq_true.mp hb
    exact (List.any_eq_true.mpr ⟨x, h.mem_iff.mp hx, hpx⟩).symm
  | false =>
    cases hb2 : l2.any p with
    | false => rfl
    | true =>
      obtain ⟨x, hx, hpx⟩ := List.any_eq_true.mp hb2
      have hcontra := List.any_eq_true.mpr ⟨x, h.mem_iff.mpr hx, hpx⟩
      rw [hb] at hcontra
      cases hcontra

theorem contains_key_perm {fl1 fl2 : FieldList} (h : fl1.toList.Perm fl2.toList)
    (k : String) : fl1.contains_key k = fl2.contains_key k := by
  rw [contains_key_any, contains_key_any]
  exact any_perm h _

theorem object_errIssues (fl : FieldList) (strict : Bool) (entries : List (String × Value)) :
    errIssues (validate (.objectS fl strict) (.obj entries)) =
      (validateFields fl entries).2.issues ++
        (if strict && !(unrecKeys fl entries).isEmpty then
          [ValidationIssue.mk [] (.unrecognizedKeys (unrecKeys fl entries))] else []) := by
  have hkeys : (entries.filter (fun kv => !fl.contains_key kv.1)).map (fun kv => kv.1) =
      unrecKeys fl entries := rfl
  simp only [validate, Value.as_object, hkeys]
  cases strict with
  | false =>
    simp only [Bool.false_and, Bool.false_eq_true, if_false, List.append_nil]
    cases hemp : (validateFields fl entries).2.is_empty with
    | true =>
      have h0 : (validateFields fl entries).2.issues = [] :=
        List.isEmpty_iff.mp (by simpa [ValidationResult.is_empty] using hemp)
      simp [errIssues, hemp, h0]
    | false => simp [errIssues, hemp]
  | true =>
    simp only [Bool.true_and]
    cases hu : (unrecKeys fl entries).isEmpty with
    | true =>
      simp only [hu, Bool.not_true, Bool.false_eq_true, if_false]
      cases hemp : (validateFields fl entries).2.is_empty with
      | true =>
        have h0 : (validateFields fl entries).2.issues = [] :=
          List.isEmpty_iff.mp (by simpa [ValidationResult.is_empty] using hemp)
        simp [errIssues, hemp, h0]
      | false => simp [errIssues, hemp]
    | false =>
      simp only [hu, Bool.not_false, if_true]
      simp [errIssues, ValidationResult.is_empty, ValidationResult.add_error_at_path]

end ZodRs

namespace ZodRs

/-- C3: for every object schema and mapping input, the default lenient
mode copies every unconfigured input key/value pair unchanged into the
output (for well-formed inputs with distinct keys) and succeeds whenever
all configured fields pass; strict mode instead appends exactly one
UnrecognizedKeys issue at this object's root path (empty path, before any
parent prefixing) listing all unconfigured keys present, so an input
whose configured fields pass but which has unconfigured keys fails with
exactly that one issue.  Concretely, `object().field("name", string())`
on `{"name":"J","extra":"z"}` succeeds preserving `"extra":"z"`, and the
same schema strict fails with UnrecognizedKeys `["extra"]`. -/
theorem c3_object_lenient_vs_strict :
    (∀ (fl : FieldList) (entries res : List (String × Value)),
      (entries.map Prod.fst).Nodup →
      validate (.objectS fl false) (.obj entries) = .ok (.vValue (.obj res)) →
      ∀ kv ∈ entries, fl.contains_key kv.1 = false → kv ∈ res) ∧
    (∀ (fl : FieldList) (entries : List (String × Value)),
      (validateFields fl entries).2.issues = [] →
      validate (.objectS fl false) (.obj entries) =
        .ok (.vValue (.obj ((entries.filter (fun kv => !fl.contains_key kv.1)).foldl
          (fun m kv => mapInsert m kv.1 kv.2)
          ((validateFields fl entries).1.foldl
            (fun m kv => mapInsert m kv.1 kv.2) []))))) ∧
    (∀ (fl : FieldList) (entries : List (String × Value)),
      unrecKeys fl entries ≠ [] →
      validate (.objectS fl true) (.obj entries) =
        .error ⟨(validateFields fl entries).2.issues ++
          [.mk [] (.unrecognizedKeys (unrecKeys fl entries))]⟩) ∧
    (∀ (fl : FieldList) (entries : List (String × Value)),
      (validateFields fl entries).2.issues = [] →
      unrecKeys fl entries ≠ [] →
      validate (.objectS fl true) (.obj entries) =
        .error ⟨[.mk [] (.unrecognizedKeys (unrecKeys fl entries))]⟩) ∧
    (validate (.objectS (toFieldList [("name", false, .stringS string)]) false)
      (.obj [("extra", .str "z"), ("name", .str "J")]) =
      .ok (.vValue (.obj [("extra", .str "z"), ("name", .str "J")]))) ∧
    (validate (.objectS (toFieldList [("name", false, .stringS string)]) true)
      (.obj [("extra", .str "z"), ("name", .str "J")]) =
      .error ⟨[.mk [] (.unrecognizedKeys ["extra"])]⟩) := by
  have hstrict : ∀ (fl : FieldList) (entries : List (String × Value)),
      unrecKeys fl entries ≠ [] →
      validate (.objectS fl true) (.obj entries) =
        .error ⟨(validateFields fl entries).2.issues ++
          [.mk [] (.unrecognizedKeys (unrecKeys fl entries))]⟩ := by
    intro fl entries hunrec
    have hu : (unrecKeys fl entries).isEmpty = false := by
      cases hk : unrecKeys fl entries with
      | nil => exact absurd hk hunrec
      | cons a l => rfl
    have hiss := object_errIssues fl true entries
    rw [hu] at hiss
    simp only [Bool.not_false, Bool.and_true, if_true] at hiss
    cases hv : validate (.objectS fl true) (.obj entries) with
    | ok out =>
      rw [hv] at hiss
      simp only [errIssues] at hiss
      exact absurd hiss.symm (by simp)
    | error r =>
      rw [hv] at hiss
      simp only [errIssues] at hiss
      cases r with
      | mk issues => simp_all
  refine ⟨?_, ?_, hstrict, ?_, by rfl, by rfl⟩
  · intro fl entries res hnd hok kv hmem hck
    simp only [validate, Value.as_object, Bool.false_eq_true, if_false] at hok
    split at hok
    · next hemp =>
      obtain hres : _ = res :=
        (Value.obj.injEq _ _).mp ((VOut.vValue.injEq _ _).mp ((Except.ok.injEq _ _).mp hok))
      rw [← hres]
      obtain ⟨a, b⟩ := kv
      refine mem_foldl_mapInsert_of_mem _ _ a b ?_ ?_
      · exact List.mem_filter.mpr ⟨hmem, by simp [hck]⟩
      · exact List.Nodup.sublist
          (List.Sublist.map Prod.fst (List.filter_sublist entries)) hnd
    · cases hok
  · intro fl entries h
    have hemp : (validateFields fl entries).2.is_empty = true := by
      simp [ValidationResult.is_empty, h]
    simp only [validate, Value.as_object, Bool.false_eq_true, if_false, hemp, if_true]
  · intro fl entries hpass hunrec
    rw [hstrict fl entries hunrec, hpass]
    rfl

/-- Witness for C3 at concrete inputs. -/
theorem c3_object_lenient_vs_strict_witness :
    (("extra", Value.str "z") ∈ ([("extra", Value.str "z"), ("name", Value.str "J")] :
      List (String × Value))) ∧
    (validate (.objectS (toFieldList [("name", false, .stringS string)]) true)
      (.obj [("extra", .str "z"), ("name", .str "J")]) =
      .error ⟨[.mk [] (.unrecognizedKeys (unrecKeys
        (toFieldList [("name", false, .stringS string)])
        [("extra", .str "z"), ("name", .str "J")]))]⟩) :=
  ⟨c3_object_lenient_vs_strict.1 (toFieldList [("name", false, .stringS string)])
    [("extra", .str "z"), ("name", .str "J")] [("extra", .str "z"), ("name", .str "J")]
    (by simp) (by rfl) ("extra", .str "z") (by simp) (by rfl),
   c3_object_lenient_vs_strict.2.2.2.1 (toFieldList [("name", false, .stringS string)])
    [("extra", .str "z"), ("name", .str "J")] (by rfl) (by decide)⟩

end ZodRs

namespace ZodRs

/-- C4 counterexample: two object schemas whose field tables hold the same
bindings (a permutation — the hash map's iteration order is not fixed by
the configuration) return their issues in different orders on the same
input, so equally configured schemas do not produce the same issue list. -/
theorem c4_order_counterexample :
    (toFieldList [("a", false, .stringS string), ("b", false, .stringS string)]).toList.Perm
      (toFieldList [("b", false, .stringS string), ("a", false, .stringS string)]).toList ∧
    validate (.objectS (toFieldList
        [("a", false, .stringS string), ("b", false, .stringS string)]) false) (.obj []) ≠
      validate (.objectS (toFieldList
        [("b", false, .stringS string), ("a", false, .stringS string)]) false) (.obj []) := by
  constructor
  · exact List.Perm.swap _ _ _
  · intro h
    rw [show validate (.objectS (toFieldList
        [("a", false, .stringS string), ("b", false, .stringS string)]) false) (.obj []) =
        .error ⟨[.mk ["a"] .required, .mk ["b"] .required]⟩ from rfl,
      show validate (.objectS (toFieldList
        [("b", false, .stringS string), ("a", false, .stringS string)]) false) (.obj []) =
        .error ⟨[.mk ["b"] .required, .mk ["a"] .required]⟩ from rfl] at h
    simp at h

/-- C4 amended: one validate call on a mapping schema with two failing
required fields reports both issues (no short-circuit), and the issue
list is complete and deterministic up to order — permuting the field
table (the hash map's iteration order) permutes the issues, so equally
configured object schemas agree on success and on the multiset of issues,
while the order itself follows the field-table iteration order. -/
theorem c4_complete_issues_perm :
    (validate (.objectS (toFieldList
        [("a", false, .stringS string), ("b", false, .stringS string)]) false) (.obj []) =
      .error ⟨[.mk ["a"] .required, .mk ["b"] .required]⟩) ∧
    (∀ (fl1 fl2 : FieldList) (strict : Bool) (v : Value),
      fl1.toList.Perm fl2.toList →
      (errIssues (validate (.objectS fl1 strict) v)).Perm
        (errIssues (validate (.objectS fl2 strict) v))) := by
  refine ⟨by rfl, ?_⟩
  intro fl1 fl2 strict v hperm
  cases v with
  | obj entries =>
    have hck : ∀ k, fl1.contains_key k = fl2.contains_key k := contains_key_perm hperm
    have hunrec : unrecKeys fl1 entries = unrecKeys fl2 entries := by
      unfold unrecKeys
      congr 1
      apply List.filter_congr
      intro kv _
      rw [hck]
    rw [object_errIssues, object_errIssues, hunrec]
    refine List.Perm.append_right _ ?_
    rw [validateFields_issues, validateFields_issues]
    exact hperm.flatMap_right _
  | null => exact List.Perm.refl _
  | bool b => exact List.Perm.refl _
  | num q => exact List.Perm.refl _
  | str s => exact List.Perm.refl _
  | arr items => exact List.Perm.refl _

/-- Witness for C4's amended claim at concrete inputs. -/
theorem c4_complete_issues_perm_witness :
    (errIssues (validate (.objectS (toFieldList
        [("a", false, .stringS string), ("b", false, .stringS string)]) false) (.obj []))).Perm
      (errIssues (validate (.objectS (toFieldList
        [("b", false, .stringS string), ("a", false, .stringS string)]) false) (.obj []))) :=
  c4_complete_issues_perm.2
    (toFieldList [("a", false, .stringS string), ("b", false, .stringS string)])
    (toFieldList [("b", false, .stringS string), ("a", false, .stringS string)])
    false (.obj []) (List.Perm.swap _ _ _)

end ZodRs
